import Mathlib

/-!
Verification of the dual-view JIT memory manager of
`src/android/app/src/main/jni/android_jit.cpp`.

The embedding mirrors the C translation unit:
* addresses are `Nat` values below `2 ^ 64` (the value of a `uintptr_t` /
  `size_t`); the null pointer is `0`;
* the two `std::map` registries (`g_jit_allocations_by_rw`,
  `g_jit_allocations_by_rx`) are association lists with unique keys.  A
  `std::map` iterates in key order; every property proved here about the
  linear containment scans is independent of iteration order because open
  ranges are pairwise disjoint, so a key-unique association list is a
  faithful model;
* the entry `g_jit_allocations_by_rx[rx] = &g_jit_allocations_by_rw[rw]`
  stores a pointer into the first map; the model stores the `rw` key and
  dereferencing re-reads the first map;
* the OS primitives (`sysconf`, `memfd_create`, `ftruncate`, `mmap`) are
  an oracle argument giving each call result, and every OS call the code
  performs (`memfd_create`, `ftruncate`, `mmap`, `munmap`, `close`) is
  recorded in an action trace, so that resource rollback is observable.
-/

/-- Number of values of a 64-bit `uintptr_t` / `size_t`. -/
def UPTR : Nat := 2 ^ 64

/-- Mirrors `struct JitAllocation` of android_jit.cpp. -/
structure JitAllocation where
  rw_ptr : Nat
  rx_ptr : Nat
  size : Nat
  fd : Int
deriving DecidableEq

/-- The global state of the module: the two registries, the cached page
size and the initialization flag. -/
structure JitState where
  by_rw : List (Nat × JitAllocation)
  by_rx : List (Nat × Nat)
  page_size : Nat
  initialized : Bool
deriving DecidableEq

/-- One OS call performed by the module, as recorded in a trace. -/
inductive OsAction where
  | memfdCreate (fd : Int)
  | ftruncateCall (fd : Int) (len : Nat)
  | mmapCall (len : Nat) (fd : Int) (res : Option Nat)
  | munmapCall (addr len : Nat)
  | closeCall (fd : Int)
deriving DecidableEq

/-- Results the OS would hand to one `android_jit_alloc` call:
the `sysconf` page size probed if `android_jit_init` runs, the
`memfd_create` return value, whether `ftruncate` succeeds, and the two
`mmap` results (`none` models `MAP_FAILED`). -/
structure OsOracle where
  sys_page_size : Nat
  memfd : Int
  ftruncate_ok : Bool
  rw_map : Option Nat
  rx_map : Option Nat
deriving DecidableEq

/-- Mirrors `round_up_to_page`: `(size + g_page_size - 1) & ~(g_page_size - 1)`
computed in `size_t` arithmetic, so both the addition and the subtractions
wrap modulo `2 ^ 64`. -/
def round_up_to_page (page_size size : Nat) : Nat :=
  ((size + page_size + (UPTR - 1)) % UPTR) &&&
    ((UPTR - 1) ^^^ ((page_size + (UPTR - 1)) % UPTR))

/-- Mirrors `android_jit_init`.  `probed` is the `sysconf(_SC_PAGESIZE)`
result; `0` triggers the 4096 fallback. -/
def android_jit_init (probed : Nat) (st : JitState) : Int × JitState :=
  if st.initialized then (0, st)
  else
    let p := if probed = 0 then 4096 else probed
    (0, { st with page_size := p, initialized := true })

/-- The `if (!g_initialized) android_jit_init();` step at the top of
`android_jit_alloc`. -/
def initIfNeeded (probed : Nat) (st : JitState) : JitState :=
  if st.initialized then st else (android_jit_init probed st).2

/-- Assignment through `std::map::operator[]`: replace the entry with this
key, or add a new entry when the key is absent. -/
def insertAssoc {α : Type} (key : Nat) (v : α) : List (Nat × α) → List (Nat × α)
  | [] => [(key, v)]
  | e :: rest => if e.1 = key then (key, v) :: rest else e :: insertAssoc key v rest

/-- The containment test of the translation scans:
`addr >= base && addr < base + alloc.size` in `uintptr_t` arithmetic. -/
def containsAddr (base sz addr : Nat) : Bool :=
  decide (base ≤ addr) && decide (addr < (base + sz) % UPTR)

/-- Result of one `android_jit_alloc` call.  `einval` records whether the
call itself set `errno = EINVAL`.  `rw_out`/`rx_out` are the contents of
the output slots on return (`none`: the slot was null, so never written). -/
structure AllocOutcome where
  ret : Int
  einval : Bool
  st : JitState
  rw_out : Option Nat
  rx_out : Option Nat
  trace : List OsAction
deriving DecidableEq

/-- Mirrors `android_jit_alloc`.  `rw_slot`/`rx_slot` say whether the two
output pointers are non-null. -/
def android_jit_alloc (os : OsOracle) (st : JitState) (size : Nat)
    (rw_slot rx_slot : Bool) : AllocOutcome :=
  if !rw_slot || !rx_slot then
    { ret := -1, einval := true, st := st, rw_out := none, rx_out := none, trace := [] }
  else
    let st1 := initIfNeeded os.sys_page_size st
    let alloc_size := round_up_to_page st1.page_size size
    if os.memfd < 0 then
      { ret := -1, einval := false, st := st1, rw_out := some 0, rx_out := some 0,
        trace := [.memfdCreate os.memfd] }
    else if !os.ftruncate_ok then
      { ret := -1, einval := false, st := st1, rw_out := some 0, rx_out := some 0,
        trace := [.memfdCreate os.memfd, .ftruncateCall os.memfd alloc_size,
                  .closeCall os.memfd] }
    else
      match os.rw_map with
      | none =>
        { ret := -1, einval := false, st := st1, rw_out := some 0, rx_out := some 0,
          trace := [.memfdCreate os.memfd, .ftruncateCall os.memfd alloc_size,
                    .mmapCall alloc_size os.memfd none, .closeCall os.memfd] }
      | some rw =>
        match os.rx_map with
        | none =>
          { ret := -1, einval := false, st := st1, rw_out := some 0, rx_out := some 0,
            trace := [.memfdCreate os.memfd, .ftruncateCall os.memfd alloc_size,
                      .mmapCall alloc_size os.memfd (some rw),
                      .mmapCall alloc_size os.memfd none,
                      .munmapCall rw alloc_size, .closeCall os.memfd] }
        | some rx =>
          let rec0 : JitAllocation :=
            { rw_ptr := rw, rx_ptr := rx, size := alloc_size, fd := os.memfd }
          { ret := 0, einval := false,
            st := { st1 with
                      by_rw := insertAssoc rw rec0 st1.by_rw,
                      by_rx := insertAssoc rx rw st1.by_rx },
            rw_out := some rw, rx_out := some rx,
            trace := [.memfdCreate os.memfd, .ftruncateCall os.memfd alloc_size,
                      .mmapCall alloc_size os.memfd (some rw),
                      .mmapCall alloc_size os.memfd (some rx)] }

/-- The unmap/close sequence applied to one allocation record, shared by
`android_jit_free` and `android_jit_shutdown`. -/
def teardownActions (rec0 : JitAllocation) : List OsAction :=
  (if rec0.rw_ptr ≠ 0 then [.munmapCall rec0.rw_ptr rec0.size] else []) ++
  (if rec0.rx_ptr ≠ 0 then [.munmapCall rec0.rx_ptr rec0.size] else []) ++
  (if 0 ≤ rec0.fd then [.closeCall rec0.fd] else [])

/-- Result of `android_jit_free` / `android_jit_shutdown`: the new state
and the OS calls performed. -/
structure FreeOutcome where
  st : JitState
  trace : List OsAction
deriving DecidableEq

/-- Mirrors `android_jit_free`.  The caller-supplied `size` parameter is
accepted, as in the C signature, and never read: unmapping uses the size
recorded in the registry.  The mismatch check on `rx_ptr` only logs. -/
def android_jit_free (st : JitState) (rw_ptr rx_ptr : Nat) (size : Nat) : FreeOutcome :=
  if rw_ptr = 0 ∧ rx_ptr = 0 then { st := st, trace := [] }
  else
    match st.by_rw.lookup rw_ptr with
    | none => { st := st, trace := [] }
    | some rec0 =>
      { st := { st with
                  by_rx := st.by_rx.eraseP (fun e => e.1 == rec0.rx_ptr),
                  by_rw := st.by_rw.eraseP (fun e => e.1 == rw_ptr) },
        trace := teardownActions rec0 }

/-- Mirrors `android_jit_shutdown`: tears every open allocation down,
clears both registries and leaves the Initialized state. -/
def android_jit_shutdown (st : JitState) : FreeOutcome :=
  { st := { st with by_rw := [], by_rx := [], initialized := false },
    trace := (st.by_rw.map (fun e => teardownActions e.2)).flatten }

/-- Mirrors `android_jit_rx_to_rw`.  The exact-match branch dereferences
the stored pointer into the `by_rw` map; the `none` inner branch models a
dangling pointer and is unreachable for well-formed registries. -/
def android_jit_rx_to_rw (st : JitState) (rx_ptr : Nat) : Nat :=
  if rx_ptr = 0 then 0
  else
    match st.by_rx.lookup rx_ptr with
    | some w =>
      match st.by_rw.lookup w with
      | some rec0 => rec0.rw_ptr
      | none => 0
    | none =>
      match st.by_rw.find? (fun e => containsAddr e.2.rx_ptr e.2.size rx_ptr) with
      | some e => (e.2.rw_ptr + (rx_ptr - e.2.rx_ptr)) % UPTR
      | none => 0

/-- Mirrors `android_jit_rw_to_rx`. -/
def android_jit_rw_to_rx (st : JitState) (rw_ptr : Nat) : Nat :=
  if rw_ptr = 0 then 0
  else
    match st.by_rw.lookup rw_ptr with
    | some rec0 => rec0.rx_ptr
    | none =>
      match st.by_rw.find? (fun e => containsAddr e.2.rw_ptr e.2.size rw_ptr) with
      | some e => (e.2.rx_ptr + (rw_ptr - e.2.rw_ptr)) % UPTR
      | none => 0

/-- An address lies in the half-open range of `sz` bytes at `base`. -/
def inRange (base sz addr : Nat) : Prop := base ≤ addr ∧ addr < base + sz

instance (base sz addr : Nat) : Decidable (inRange base sz addr) := by
  unfold inRange; infer_instance

/-- Two half-open ranges do not intersect. -/
def rangesDisjoint (b1 s1 b2 s2 : Nat) : Prop := b1 + s1 ≤ b2 ∨ b2 + s2 ≤ b1

instance (b1 s1 b2 s2 : Nat) : Decidable (rangesDisjoint b1 s1 b2 s2) := by
  unfold rangesDisjoint; infer_instance

/-- Well-formedness of the registry, as guaranteed by the OS mapping
primitives for states reachable through the API: keys are unique; the key
of each `by_rw` entry is the recorded writable base; sizes are positive
(`mmap` fails on length 0); bases are non-null and ranges stay strictly
below the top of the address space (user mappings never touch it); the
`by_rx` index points exactly at the `by_rw` records; and live ranges of
each view are pairwise disjoint. -/
def WF (st : JitState) : Prop :=
  (st.by_rw.map Prod.fst).Nodup ∧
  (st.by_rx.map Prod.fst).Nodup ∧
  (∀ e ∈ st.by_rw, e.2.rw_ptr = e.1 ∧ 0 < e.2.size ∧ e.2.rw_ptr ≠ 0 ∧ e.2.rx_ptr ≠ 0 ∧
      e.2.rw_ptr + e.2.size < UPTR ∧ e.2.rx_ptr + e.2.size < UPTR) ∧
  (∀ p ∈ st.by_rx, ∃ e ∈ st.by_rw, e.1 = p.2 ∧ e.2.rx_ptr = p.1) ∧
  (∀ e ∈ st.by_rw, (e.2.rx_ptr, e.1) ∈ st.by_rx) ∧
  st.by_rw.Pairwise (fun e1 e2 => rangesDisjoint e1.2.rw_ptr e1.2.size e2.2.rw_ptr e2.2.size) ∧
  st.by_rw.Pairwise (fun e1 e2 => rangesDisjoint e1.2.rx_ptr e1.2.size e2.2.rx_ptr e2.2.size)

instance (st : JitState) : Decidable (WF st) := by
  unfold WF; infer_instance

/-! Concrete fixtures used by the closed witness and counterexample
theorems: a freshly initialized empty state, oracles for allocations
(successful, with a failing rx mmap, with a failing rw mmap), and a
two-allocation registry state. -/

def st0 : JitState :=
  { by_rw := [], by_rx := [], page_size := 4096, initialized := true }

def osA : OsOracle :=
  { sys_page_size := 4096, memfd := 3, ftruncate_ok := true,
    rw_map := some 4096, rx_map := some 20480 }

def osB : OsOracle :=
  { sys_page_size := 4096, memfd := 4, ftruncate_ok := true,
    rw_map := some 8192, rx_map := some 40960 }

def osC : OsOracle :=
  { sys_page_size := 4096, memfd := 7, ftruncate_ok := true,
    rw_map := some 4096, rx_map := none }

def osZ : OsOracle :=
  { sys_page_size := 4096, memfd := 9, ftruncate_ok := true,
    rw_map := none, rx_map := none }

def recA : JitAllocation := { rw_ptr := 4096, rx_ptr := 20480, size := 4096, fd := 3 }

def recB : JitAllocation := { rw_ptr := 12288, rx_ptr := 28672, size := 8192, fd := 4 }

def stEx : JitState :=
  { by_rw := [(4096, recA), (12288, recB)],
    by_rx := [(20480, 4096), (28672, 12288)],
    page_size := 4096, initialized := true }

/-! Sanity checks of the embedding on concrete values. -/

theorem round_up_check_small : round_up_to_page 4096 100 = 4096 := by decide

theorem round_up_check_exact : round_up_to_page 4096 4096 = 4096 := by decide

theorem round_up_check_over : round_up_to_page 4096 4097 = 8192 := by decide

theorem round_up_check_zero : round_up_to_page 4096 0 = 0 := by decide

theorem stEx_wf : WF stEx := by decide

/-! Helper lemmas about association lists with unique keys. -/

theorem lookup_mem {α : Type} {l : List (Nat × α)} {k : Nat} {v : α}
    (h : l.lookup k = some v) : (k, v) ∈ l := by
  rcases List.lookup_eq_some_iff.mp h with ⟨l1, l2, rfl, -⟩
  simp

theorem mem_lookup {α : Type} {l : List (Nat × α)} {k : Nat} {v : α}
    (hnd : (l.map Prod.fst).Nodup) (h : (k, v) ∈ l) : l.lookup k = some v := by
  induction l with
  | nil => simp at h
  | cons e rest ih =>
    obtain ⟨k1, v1⟩ := e
    simp only [List.map_cons, List.nodup_cons, List.mem_map] at hnd
    rcases List.mem_cons.mp h with h2 | h2
    · rw [show k = k1 from congrArg Prod.fst h2, show v = v1 from congrArg Prod.snd h2]
      exact List.lookup_cons_self
    · have hne : (k == k1) = false := by
        apply beq_false_of_ne
        rintro rfl
        exact hnd.1 ⟨(k, v), h2, rfl⟩
      rw [List.lookup_cons, hne]
      exact ih hnd.2 h2

theorem not_mem_eraseP_key {α : Type} {l : List (Nat × α)} {k : Nat} {v : α}
    (hnd : (l.map Prod.fst).Nodup) (h : (k, v) ∈ l) :
    (k, v) ∉ l.eraseP (fun e => e.1 == k) := by
  induction l with
  | nil => simp at h
  | cons e rest ih =>
    obtain ⟨k1, v1⟩ := e
    simp only [List.map_cons, List.nodup_cons, List.mem_map] at hnd
    by_cases hk : k1 = k
    · subst hk
      rw [List.eraseP_cons, show (((k1, v1).1 == k1) : Bool) = true from beq_self_eq_true k1]
      simp only [cond_true]
      intro hmem
      exact hnd.1 ⟨(k1, v), hmem, rfl⟩
    · have hb : (((k1, v1).1 == k) : Bool) = false := beq_false_of_ne hk
      rw [List.eraseP_cons, hb]
      simp only [cond_false, List.mem_cons]
      rintro (h1 | h1)
      · exact hk (congrArg Prod.fst h1).symm
      · rcases List.mem_cons.mp h with h2 | h2
        · exact hk (congrArg Prod.fst h2).symm
        · exact ih hnd.2 h2 h1

theorem not_disjoint_of_mem_both {b1 s1 b2 s2 a : Nat} (h1 : inRange b1 s1 a)
    (h2 : inRange b2 s2 a) : ¬ rangesDisjoint b1 s1 b2 s2 := by
  unfold inRange at h1 h2
  unfold rangesDisjoint
  omega

theorem contains_unique {l : List (Nat × JitAllocation)}
    (base sz : Nat × JitAllocation → Nat)
    (hpw : l.Pairwise (fun e1 e2 => rangesDisjoint (base e1) (sz e1) (base e2) (sz e2)))
    {e1 e2 : Nat × JitAllocation} (h1 : e1 ∈ l) (h2 : e2 ∈ l) {a : Nat}
    (hc1 : inRange (base e1) (sz e1) a) (hc2 : inRange (base e2) (sz e2) a) : e1 = e2 := by
  by_contra hne
  have hsym : Symmetric (fun e1 e2 : Nat × JitAllocation =>
      rangesDisjoint (base e1) (sz e1) (base e2) (sz e2)) := by
    intro x y hxy
    unfold rangesDisjoint at hxy ⊢
    omega
  exact not_disjoint_of_mem_both hc1 hc2 (List.Pairwise.forall hsym hpw h1 h2 hne)

theorem containsAddr_iff {base sz addr : Nat} (h : base + sz < UPTR) :
    containsAddr base sz addr = true ↔ inRange base sz addr := by
  unfold containsAddr inRange
  rw [Nat.mod_eq_of_lt h]
  simp

/-! Helper lemmas about page rounding. -/

theorem land_high_mask {k x : Nat} (hk : k ≤ 64) (hx : x < 2 ^ 64) :
    x &&& ((2 ^ 64 - 1) ^^^ (2 ^ k - 1)) = 2 ^ k * (x / 2 ^ k) := by
  apply Nat.eq_of_testBit_eq
  intro i
  rw [Nat.testBit_land, Nat.testBit_xor, Nat.testBit_two_pow_sub_one,
    Nat.testBit_two_pow_sub_one, Nat.testBit_mul_pow_two]
  rcases Nat.lt_or_ge i k with hik | hik
  · have h64 : i < 64 := lt_of_lt_of_le hik hk
    simp [hik, h64, Nat.not_le_of_lt hik]
  · have hdiv : Nat.testBit (x / 2 ^ k) (i - k) = Nat.testBit x i := by
      rw [Nat.testBit_to_div_mod, Nat.testBit_to_div_mod, Nat.div_div_eq_div_mul,
        ← Nat.pow_add, Nat.add_sub_cancel' hik]
    rcases Nat.lt_or_ge i 64 with hi64 | hi64
    · simp [hik, hi64, Nat.not_lt_of_le hik, hdiv]
    · have hxi : Nat.testBit x i = false :=
        Nat.testBit_lt_two_pow
          (lt_of_lt_of_le hx (Nat.pow_le_pow_right (by norm_num) hi64))
      simp [hxi, hdiv, Nat.not_lt_of_le hi64, Nat.not_lt_of_le (le_trans hk hi64), hik]

theorem round_up_to_page_eq {k s : Nat} (hk : k < 64) (hs : s + 2 ^ k ≤ 2 ^ 64) :
    round_up_to_page (2 ^ k) s = 2 ^ k * ((s + 2 ^ k - 1) / 2 ^ k) := by
  have hp : 0 < 2 ^ k := Nat.two_pow_pos k
  have hk64 : 2 ^ k < 2 ^ 64 := Nat.pow_lt_pow_right (by norm_num) hk
  unfold round_up_to_page UPTR
  have e1 : (s + 2 ^ k + (2 ^ 64 - 1)) % 2 ^ 64 = s + 2 ^ k - 1 := by
    have h2 : s + 2 ^ k + (2 ^ 64 - 1) = (s + 2 ^ k - 1) + 2 ^ 64 := by omega
    rw [h2, Nat.add_mod_right, Nat.mod_eq_of_lt (by omega)]
  have e2 : (2 ^ k + (2 ^ 64 - 1)) % 2 ^ 64 = 2 ^ k - 1 := by
    have h2 : 2 ^ k + (2 ^ 64 - 1) = (2 ^ k - 1) + 2 ^ 64 := by omega
    rw [h2, Nat.add_mod_right, Nat.mod_eq_of_lt (by omega)]
  rw [e1, e2]
  exact land_high_mask (le_of_lt hk) (by omega)

theorem round_up_le_characterization {p s r : Nat} (hp : 0 < p)
    (hr : r = p * ((s + p - 1) / p)) : s ≤ r ∧ r % p = 0 ∧ r < s + p := by
  have hdm := Nat.div_add_mod (s + p - 1) p
  have hlt : (s + p - 1) % p < p := Nat.mod_lt _ hp
  refine ⟨by omega, ?_, by omega⟩
  rw [hr]
  exact Nat.mul_mod_right p _

/-! Accessors for the conjuncts of well-formedness. -/

theorem WF.rw_nodup {st : JitState} (hwf : WF st) : (st.by_rw.map Prod.fst).Nodup := hwf.1

theorem WF.rx_nodup {st : JitState} (hwf : WF st) : (st.by_rx.map Prod.fst).Nodup := hwf.2.1

theorem WF.entry {st : JitState} (hwf : WF st) {w : Nat} {rec0 : JitAllocation}
    (hm : (w, rec0) ∈ st.by_rw) :
    rec0.rw_ptr = w ∧ 0 < rec0.size ∧ rec0.rw_ptr ≠ 0 ∧ rec0.rx_ptr ≠ 0 ∧
      rec0.rw_ptr + rec0.size < UPTR ∧ rec0.rx_ptr + rec0.size < UPTR :=
  hwf.2.2.1 (w, rec0) hm

theorem WF.rx_sound {st : JitState} (hwf : WF st) {x w : Nat} (hm : (x, w) ∈ st.by_rx) :
    ∃ e ∈ st.by_rw, e.1 = w ∧ e.2.rx_ptr = x :=
  hwf.2.2.2.1 (x, w) hm

theorem WF.rx_compl {st : JitState} (hwf : WF st) {w : Nat} {rec0 : JitAllocation}
    (hm : (w, rec0) ∈ st.by_rw) : (rec0.rx_ptr, w) ∈ st.by_rx :=
  hwf.2.2.2.2.1 (w, rec0) hm

theorem WF.rw_pairwise {st : JitState} (hwf : WF st) :
    st.by_rw.Pairwise (fun e1 e2 => rangesDisjoint e1.2.rw_ptr e1.2.size e2.2.rw_ptr e2.2.size) :=
  hwf.2.2.2.2.2.1

theorem WF.rx_pairwise {st : JitState} (hwf : WF st) :
    st.by_rw.Pairwise (fun e1 e2 => rangesDisjoint e1.2.rx_ptr e1.2.size e2.2.rx_ptr e2.2.size) :=
  hwf.2.2.2.2.2.2

theorem lookup_insertAssoc {α : Type} (k : Nat) (v : α) (l : List (Nat × α)) :
    (insertAssoc k v l).lookup k = some v := by
  induction l with
  | nil => simp [insertAssoc]
  | cons e rest ih =>
    obtain ⟨k1, v1⟩ := e
    unfold insertAssoc
    by_cases h : k1 = k
    · rw [if_pos h]
      exact List.lookup_cons_self
    · rw [if_neg h, List.lookup_cons, beq_false_of_ne (Ne.symm h)]
      exact ih

/-- A successful `android_jit_alloc`, written out: what the function returns
when both slots are non-null and every OS call succeeds. -/
theorem alloc_success_shape (os : OsOracle) (st : JitState) (size a b : Nat)
    (hrw : os.rw_map = some a) (hrx : os.rx_map = some b)
    (hfd : 0 ≤ os.memfd) (hft : os.ftruncate_ok = true) :
    android_jit_alloc os st size true true =
      { ret := 0, einval := false,
        st := { initIfNeeded os.sys_page_size st with
                  by_rw := insertAssoc a
                    { rw_ptr := a, rx_ptr := b,
                      size := round_up_to_page (initIfNeeded os.sys_page_size st).page_size size,
                      fd := os.memfd }
                    (initIfNeeded os.sys_page_size st).by_rw,
                  by_rx := insertAssoc b a (initIfNeeded os.sys_page_size st).by_rx },
        rw_out := some a, rx_out := some b,
        trace := [.memfdCreate os.memfd,
                  .ftruncateCall os.memfd
                    (round_up_to_page (initIfNeeded os.sys_page_size st).page_size size),
                  .mmapCall (round_up_to_page (initIfNeeded os.sys_page_size st).page_size size)
                    os.memfd (some a),
                  .mmapCall (round_up_to_page (initIfNeeded os.sys_page_size st).page_size size)
                    os.memfd (some b)] } := by
  unfold android_jit_alloc
  rw [hrw, hrx, hft]
  simp [Int.not_lt.mpr hfd]

/-! Core facts about the two translation scans on a well-formed registry. -/

theorem rw_to_rx_interior {st : JitState} {w k : Nat} {rec0 : JitAllocation}
    (hwf : WF st) (hm : (w, rec0) ∈ st.by_rw) (hk : k < rec0.size) :
    android_jit_rw_to_rx st (w + k) = rec0.rx_ptr + k := by
  obtain ⟨hkey, hpos, hnn, hxn, hnwr, hnwx⟩ := hwf.entry hm
  have hw0 : w ≠ 0 := hkey ▸ hnn
  have hc0 : inRange rec0.rw_ptr rec0.size (w + k) := by
    rw [hkey]
    exact ⟨Nat.le_add_right _ _, by omega⟩
  unfold android_jit_rw_to_rx
  rw [if_neg (by omega)]
  cases hlk : st.by_rw.lookup (w + k) with
  | some rec1 =>
    have hm1 := lookup_mem hlk
    obtain ⟨hkey1, hpos1, _, _, hnwr1, _⟩ := hwf.entry hm1
    have hc1 : inRange rec1.rw_ptr rec1.size (w + k) := by
      rw [hkey1]
      exact ⟨le_refl _, by omega⟩
    have heq : ((w + k, rec1) : Nat × JitAllocation) = (w, rec0) :=
      contains_unique (fun e => e.2.rw_ptr) (fun e => e.2.size) hwf.rw_pairwise hm1 hm hc1 hc0
    obtain ⟨hk0, hrec1⟩ := Prod.mk.inj heq
    subst hrec1
    show rec1.rx_ptr = rec1.rx_ptr + k
    omega
  | none =>
    cases hfd : st.by_rw.find? (fun e => containsAddr e.2.rw_ptr e.2.size (w + k)) with
    | none =>
      exfalso
      rw [List.find?_eq_none] at hfd
      exact hfd (w, rec0) hm ((containsAddr_iff hnwr).mpr hc0)
    | some e =>
      have hme := List.mem_of_find?_eq_some hfd
      have hpe := List.find?_some hfd
      obtain ⟨_, _, _, _, hnwe, _⟩ := hwf.2.2.1 e hme
      have hce : inRange e.2.rw_ptr e.2.size (w + k) := (containsAddr_iff hnwe).mp hpe
      have heq : e = (w, rec0) :=
        contains_unique (fun e => e.2.rw_ptr) (fun e => e.2.size) hwf.rw_pairwise hme hm hce hc0
      subst heq
      show (rec0.rx_ptr + (w + k - rec0.rw_ptr)) % UPTR = rec0.rx_ptr + k
      rw [hkey, Nat.add_sub_cancel_left, Nat.mod_eq_of_lt (by omega)]

theorem rx_to_rw_interior {st : JitState} {w k : Nat} {rec0 : JitAllocation}
    (hwf : WF st) (hm : (w, rec0) ∈ st.by_rw) (hk : k < rec0.size) :
    android_jit_rx_to_rw st (rec0.rx_ptr + k) = w + k := by
  obtain ⟨hkey, hpos, hnn, hxn, hnwr, hnwx⟩ := hwf.entry hm
  have hc0 : inRange rec0.rx_ptr rec0.size (rec0.rx_ptr + k) :=
    ⟨Nat.le_add_right _ _, by omega⟩
  unfold android_jit_rx_to_rw
  rw [if_neg (by omega)]
  cases hlk : st.by_rx.lookup (rec0.rx_ptr + k) with
  | some w1 =>
    have hmx := lookup_mem hlk
    obtain ⟨e1, hme1, hekey, herx⟩ := hwf.rx_sound hmx
    obtain ⟨_, hpos1, _, _, _, hnwx1⟩ := hwf.2.2.1 e1 hme1
    have hc1 : inRange e1.2.rx_ptr e1.2.size (rec0.rx_ptr + k) := by
      rw [herx]
      exact ⟨le_refl _, by omega⟩
    have heq : e1 = (w, rec0) :=
      contains_unique (fun e => e.2.rx_ptr) (fun e => e.2.size) hwf.rx_pairwise hme1 hm hc1 hc0
    subst heq
    have hxval : rec0.rx_ptr = rec0.rx_ptr + k := herx
    have hk0 : k = 0 := by omega
    have hw1 : w = w1 := hekey
    subst hw1
    show (match List.lookup w st.by_rw with | some r => r.rw_ptr | none => 0) = w + k
    rw [mem_lookup hwf.rw_nodup hm]
    show rec0.rw_ptr = w + k
    omega
  | none =>
    cases hfd : st.by_rw.find? (fun e => containsAddr e.2.rx_ptr e.2.size (rec0.rx_ptr + k)) with
    | none =>
      exfalso
      rw [List.find?_eq_none] at hfd
      exact hfd (w, rec0) hm ((containsAddr_iff hnwx).mpr hc0)
    | some e =>
      have hme := List.mem_of_find?_eq_some hfd
      have hpe := List.find?_some hfd
      obtain ⟨_, _, _, _, _, hnwe⟩ := hwf.2.2.1 e hme
      have hce : inRange e.2.rx_ptr e.2.size (rec0.rx_ptr + k) := (containsAddr_iff hnwe).mp hpe
      have heq : e = (w, rec0) :=
        contains_unique (fun e => e.2.rx_ptr) (fun e => e.2.size) hwf.rx_pairwise hme hm hce hc0
      subst heq
      show (rec0.rw_ptr + (rec0.rx_ptr + k - rec0.rx_ptr)) % UPTR = w + k
      rw [Nat.add_sub_cancel_left, hkey, Nat.mod_eq_of_lt (by omega)]

/-! The claims. -/

/-- C1: for every size > 0, a call to allocate(size) that returns success
yields two distinct non-null addresses (the writable and the executable
view), and both registries resolve to one shared record whose length is
size rounded up to the next multiple of the page size (the page size in
force after the implicit init, a power of two below 2^64).  That the two
mmap results are non-null and distinct is the OS mapping guarantee,
carried as the hypotheses on the oracle; the rounding, the recording and
the shared length are proved from the code. -/
theorem claim1_alloc_rounded (os : OsOracle) (st : JitState) (size a b k : Nat)
    (hsz : 0 < size)
    (hrw : os.rw_map = some a) (hrx : os.rx_map = some b)
    (ha : a ≠ 0) (hb : b ≠ 0) (hab : a ≠ b)
    (hp : (initIfNeeded os.sys_page_size st).page_size = 2 ^ k) (hk : k < 64)
    (hbound : size + 2 ^ k ≤ 2 ^ 64)
    (hret : (android_jit_alloc os st size true true).ret = 0) :
    ∃ rec1 : JitAllocation,
      (android_jit_alloc os st size true true).rw_out = some a ∧
      (android_jit_alloc os st size true true).rx_out = some b ∧
      a ≠ 0 ∧ b ≠ 0 ∧ a ≠ b ∧
      (android_jit_alloc os st size true true).st.by_rw.lookup a = some rec1 ∧
      (android_jit_alloc os st size true true).st.by_rx.lookup b = some a ∧
      rec1.rw_ptr = a ∧ rec1.rx_ptr = b ∧
      size ≤ rec1.size ∧ rec1.size % 2 ^ k = 0 ∧ rec1.size < size + 2 ^ k := by
  rcases Int.lt_or_le os.memfd 0 with hfd | hfd
  · exfalso
    unfold android_jit_alloc at hret
    simp [hfd] at hret
  · cases hft : os.ftruncate_ok with
    | false =>
      exfalso
      unfold android_jit_alloc at hret
      rw [hrw, hrx, hft] at hret
      simp [Int.not_lt.mpr hfd] at hret
    | true =>
      rw [alloc_success_shape os st size a b hrw hrx hfd hft]
      have hru : round_up_to_page (initIfNeeded os.sys_page_size st).page_size size =
          2 ^ k * ((size + 2 ^ k - 1) / 2 ^ k) := by
        rw [hp]
        exact round_up_to_page_eq hk hbound
      obtain ⟨hle, hmod, hlt⟩ :=
        round_up_le_characterization (Nat.two_pow_pos k) hru.symm.symm
      exact ⟨_, rfl, rfl, ha, hb, hab, lookup_insertAssoc _ _ _, lookup_insertAssoc _ _ _,
        rfl, rfl, by simpa [hru] using hle, by simpa [hru] using hmod,
        by simpa [hru] using hlt⟩

/-- C1 witness: allocate(100) on a fresh initialized state with 4096-byte
pages records a 4096-byte allocation at the two oracle addresses. -/
theorem claim1_alloc_rounded_witness :
    ∃ rec1 : JitAllocation,
      (android_jit_alloc osA st0 100 true true).rw_out = some 4096 ∧
      (android_jit_alloc osA st0 100 true true).rx_out = some 20480 ∧
      (4096 : Nat) ≠ 0 ∧ (20480 : Nat) ≠ 0 ∧ (4096 : Nat) ≠ 20480 ∧
      (android_jit_alloc osA st0 100 true true).st.by_rw.lookup 4096 = some rec1 ∧
      (android_jit_alloc osA st0 100 true true).st.by_rx.lookup 20480 = some 4096 ∧
      rec1.rw_ptr = 4096 ∧ rec1.rx_ptr = 20480 ∧
      100 ≤ rec1.size ∧ rec1.size % 2 ^ 12 = 0 ∧ rec1.size < 100 + 2 ^ 12 :=
  claim1_alloc_rounded osA st0 100 4096 20480 12 (by decide) rfl rfl
    (by decide) (by decide) (by decide) (by decide) (by decide) (by decide) (by decide)

/-- C2: for every currently open allocation of recorded size N and every
offset k with 0 <= k < N, rw_to_rx(writable_base + k) returns
executable_base + k, and symmetrically rx_to_rw(executable_base + k)
returns writable_base + k. -/
theorem claim2_interior_translation (st : JitState) (w k : Nat) (rec0 : JitAllocation)
    (hwf : WF st) (hm : (w, rec0) ∈ st.by_rw) (hk : k < rec0.size) :
    android_jit_rw_to_rx st (w + k) = rec0.rx_ptr + k ∧
    android_jit_rx_to_rw st (rec0.rx_ptr + k) = w + k :=
  ⟨rw_to_rx_interior hwf hm hk, rx_to_rw_interior hwf hm hk⟩

/-- C2 witness: interior offset 5 of the first allocation of the concrete
two-allocation registry translates both ways. -/
theorem claim2_interior_translation_witness :
    android_jit_rw_to_rx stEx (4096 + 5) = recA.rx_ptr + 5 ∧
    android_jit_rx_to_rw stEx (recA.rx_ptr + 5) = 4096 + 5 :=
  claim2_interior_translation stEx 4096 5 recA (by decide) (by decide) (by decide)

/-- C3: on any base or interior address of an open allocation, the two
translations are mutually inverse: rw_to_rx(rx_to_rw x) = x for x in the
executable view and rx_to_rw(rw_to_rx y) = y for y in the writable view. -/
theorem claim3_translation_roundtrip (st : JitState) (w k : Nat) (rec0 : JitAllocation)
    (hwf : WF st) (hm : (w, rec0) ∈ st.by_rw) (hk : k < rec0.size) :
    android_jit_rw_to_rx st (android_jit_rx_to_rw st (rec0.rx_ptr + k)) = rec0.rx_ptr + k ∧
    android_jit_rx_to_rw st (android_jit_rw_to_rx st (w + k)) = w + k := by
  constructor
  · rw [rx_to_rw_interior hwf hm hk, rw_to_rx_interior hwf hm hk]
  · rw [rw_to_rx_interior hwf hm hk, rx_to_rw_interior hwf hm hk]

/-- C3 witness: round trips at interior offset 7 of the second allocation
of the concrete registry. -/
theorem claim3_translation_roundtrip_witness :
    android_jit_rw_to_rx stEx (android_jit_rx_to_rw stEx (recB.rx_ptr + 7)) = recB.rx_ptr + 7 ∧
    android_jit_rx_to_rw stEx (android_jit_rw_to_rx stEx (12288 + 7)) = 12288 + 7 :=
  claim3_translation_roundtrip stEx 12288 7 recB (by decide) (by decide) (by decide)

/-- C4 counterexample: the claim "for every open allocation,
rw_to_rx(writable_base + size) returns the not-found sentinel" fails when
a second open allocation starts exactly at that address.  Allocating 4096
bytes twice, with the OS returning the adjacent writable bases 4096 and
8192, leaves an open allocation with writable base 4096 and recorded size
4096, yet rw_to_rx(4096 + 4096) resolves to the second allocation and
returns 40960, not the sentinel 0. -/
theorem claim4_one_past_end_counterexample :
    (android_jit_alloc osB (android_jit_alloc osA st0 4096 true true).st 4096 true true).st.by_rw.lookup
        4096 = some { rw_ptr := 4096, rx_ptr := 20480, size := 4096, fd := 3 } ∧
    android_jit_rw_to_rx
        (android_jit_alloc osB (android_jit_alloc osA st0 4096 true true).st 4096 true true).st
        (4096 + 4096) = 40960 ∧
    (40960 : Nat) ≠ 0 := by decide

/-- C4 (amended): for every open allocation whose one-past-the-end
writable address lies in the writable range of no open allocation, rw_to_rx at
writable_base + size returns the not-found sentinel: the containment
bound used for interior resolution is exclusive at the upper end. -/
theorem claim4_one_past_end (st : JitState) (w : Nat) (rec0 : JitAllocation)
    (hwf : WF st) (hm : (w, rec0) ∈ st.by_rw)
    (hout : ∀ e ∈ st.by_rw, ¬ inRange e.2.rw_ptr e.2.size (w + rec0.size)) :
    android_jit_rw_to_rx st (w + rec0.size) = 0 := by
  obtain ⟨hkey, hpos, hnn, hxn, hnwr, hnwx⟩ := hwf.entry hm
  unfold android_jit_rw_to_rx
  rw [if_neg (by omega)]
  cases hlk : st.by_rw.lookup (w + rec0.size) with
  | some rec1 =>
    exfalso
    have hm1 := lookup_mem hlk
    obtain ⟨hkey1, hpos1, _, _, _, _⟩ := hwf.entry hm1
    have hc1 : inRange rec1.rw_ptr rec1.size (w + rec0.size) := by
      rw [hkey1]
      exact ⟨le_refl _, by omega⟩
    exact hout _ hm1 hc1
  | none =>
    cases hfd : st.by_rw.find? (fun e => containsAddr e.2.rw_ptr e.2.size (w + rec0.size)) with
    | some e =>
      exfalso
      have hme := List.mem_of_find?_eq_some hfd
      have hpe := List.find?_some hfd
      obtain ⟨_, _, _, _, hnwe, _⟩ := hwf.2.2.1 e hme
      exact hout e hme ((containsAddr_iff hnwe).mp hpe)
    | none => rfl

/-- C4 witness: in the concrete two-allocation registry the ranges are not
adjacent, and one past the end of the first allocation is not found. -/
theorem claim4_one_past_end_witness :
    android_jit_rw_to_rx stEx (4096 + recA.size) = 0 :=
  claim4_one_past_end stEx 4096 recA (by decide) (by decide) (by decide)

/-- C5: after free(w, x, s) completes on a registered allocation with
writable base w and executable base x, every translation lookup on any
base or interior address of that freed allocation returns the not-found
sentinel. -/
theorem claim5_free_clears_translations (st : JitState) (w x s k : Nat)
    (rec0 : JitAllocation) (hwf : WF st) (hm : (w, rec0) ∈ st.by_rw)
    (hx : rec0.rx_ptr = x) (hk : k < rec0.size) :
    android_jit_rw_to_rx (android_jit_free st w x s).st (w + k) = 0 ∧
    android_jit_rx_to_rw (android_jit_free st w x s).st (x + k) = 0 := by
  obtain ⟨hkey, hpos, hnn, hxn, hnwr, hnwx⟩ := hwf.entry hm
  have hw0 : w ≠ 0 := hkey ▸ hnn
  have hfree : (android_jit_free st w x s).st =
      { st with by_rx := st.by_rx.eraseP (fun e => e.1 == rec0.rx_ptr),
                by_rw := st.by_rw.eraseP (fun e => e.1 == w) } := by
    unfold android_jit_free
    rw [if_neg (by intro h; exact hw0 h.1), mem_lookup hwf.rw_nodup hm]
  have hc0rw : inRange rec0.rw_ptr rec0.size (w + k) := by
    rw [hkey]
    exact ⟨Nat.le_add_right _ _, by omega⟩
  have hc0rx : inRange rec0.rx_ptr rec0.size (x + k) := by
    rw [hx]
    exact ⟨Nat.le_add_right _ _, by omega⟩
  have hnotrw : ((w, rec0) : Nat × JitAllocation) ∉ st.by_rw.eraseP (fun e => e.1 == w) :=
    not_mem_eraseP_key hwf.rw_nodup hm
  constructor
  · rw [hfree]
    unfold android_jit_rw_to_rx
    rw [if_neg (by omega)]
    cases hlk : (st.by_rw.eraseP (fun e => e.1 == w)).lookup (w + k) with
    | some rec1 =>
      exfalso
      have hm1e := lookup_mem hlk
      have hm1 : ((w + k, rec1) : Nat × JitAllocation) ∈ st.by_rw :=
        (List.eraseP_sublist _).subset hm1e
      obtain ⟨hkey1, hpos1, _, _, _, _⟩ := hwf.entry hm1
      have hc1 : inRange rec1.rw_ptr rec1.size (w + k) := by
        rw [hkey1]
        exact ⟨le_refl _, by omega⟩
      have heq : ((w + k, rec1) : Nat × JitAllocation) = (w, rec0) :=
        contains_unique (fun e => e.2.rw_ptr) (fun e => e.2.size) hwf.rw_pairwise hm1 hm hc1 hc0rw
      rw [heq] at hm1e
      exact hnotrw hm1e
    | none =>
      cases hfd : (st.by_rw.eraseP (fun e => e.1 == w)).find?
          (fun e => containsAddr e.2.rw_ptr e.2.size (w + k)) with
      | some e =>
        exfalso
        have hmee := List.mem_of_find?_eq_some hfd
        have hme : e ∈ st.by_rw := (List.eraseP_sublist _).subset hmee
        have hpe := List.find?_some hfd
        obtain ⟨_, _, _, _, hnwe, _⟩ := hwf.2.2.1 e hme
        have hce : inRange e.2.rw_ptr e.2.size (w + k) := (containsAddr_iff hnwe).mp hpe
        have heq : e = (w, rec0) :=
          contains_unique (fun e => e.2.rw_ptr) (fun e => e.2.size) hwf.rw_pairwise hme hm hce hc0rw
        rw [heq] at hmee
        exact hnotrw hmee
      | none => rfl
  · rw [hfree]
    unfold android_jit_rx_to_rw
    rw [if_neg (by omega)]
    cases hlk : (st.by_rx.eraseP (fun e => e.1 == rec0.rx_ptr)).lookup (x + k) with
    | some w1 =>
      exfalso
      have hmxe := lookup_mem hlk
      have hmx : ((x + k, w1) : Nat × Nat) ∈ st.by_rx :=
        (List.eraseP_sublist _).subset hmxe
      obtain ⟨e1, hme1, hekey, herx⟩ := hwf.rx_sound hmx
      obtain ⟨_, hpos1, _, _, _, _⟩ := hwf.2.2.1 e1 hme1
      have hc1 : inRange e1.2.rx_ptr e1.2.size (x + k) := by
        rw [herx]
        exact ⟨le_refl _, by omega⟩
      have heq : e1 = (w, rec0) :=
        contains_unique (fun e => e.2.rx_ptr) (fun e => e.2.size) hwf.rx_pairwise hme1 hm hc1 hc0rx
      subst heq
      have hxk : rec0.rx_ptr = x + k := herx
      have hw1 : w = w1 := hekey
      have hkx : (x + k, w1) = (rec0.rx_ptr, w) := by rw [hxk, hw1]
      rw [hkx] at hmxe
      exact not_mem_eraseP_key hwf.rx_nodup (hwf.rx_compl hm) hmxe
    | none =>
      cases hfd : (st.by_rw.eraseP (fun e => e.1 == w)).find?
          (fun e => containsAddr e.2.rx_ptr e.2.size (x + k)) with
      | some e =>
        exfalso
        have hmee := List.mem_of_find?_eq_some hfd
        have hme : e ∈ st.by_rw := (List.eraseP_sublist _).subset hmee
        have hpe := List.find?_some hfd
        obtain ⟨_, _, _, _, _, hnwe⟩ := hwf.2.2.1 e hme
        have hce : inRange e.2.rx_ptr e.2.size (x + k) := (containsAddr_iff hnwe).mp hpe
        have heq : e = (w, rec0) :=
          contains_unique (fun e => e.2.rx_ptr) (fun e => e.2.size) hwf.rx_pairwise hme hm hce hc0rx
        rw [heq] at hmee
        exact hnotrw hmee
      | none => rfl

/-- C5 witness: freeing the first concrete allocation (with an arbitrary
size argument 999) makes both lookups at interior offset 3 return 0. -/
theorem claim5_free_clears_translations_witness :
    android_jit_rw_to_rx (android_jit_free stEx 4096 20480 999).st (4096 + 3) = 0 ∧
    android_jit_rx_to_rw (android_jit_free stEx 4096 20480 999).st (20480 + 3) = 0 :=
  claim5_free_clears_translations stEx 4096 20480 999 3 recA
    (by decide) (by decide) (by decide) (by decide)

/-! Auxiliary facts for the remaining claims. -/

theorem initIfNeeded_by_rw (p : Nat) (st : JitState) :
    (initIfNeeded p st).by_rw = st.by_rw := by
  unfold initIfNeeded android_jit_init
  by_cases h : st.initialized = true
  · rw [if_pos h]
  · rw [if_neg h, if_neg h]

theorem initIfNeeded_by_rx (p : Nat) (st : JitState) :
    (initIfNeeded p st).by_rx = st.by_rx := by
  unfold initIfNeeded android_jit_init
  by_cases h : st.initialized = true
  · rw [if_pos h]
  · rw [if_neg h, if_neg h]

theorem rw_to_rx_congr {st1 st2 : JitState} (h1 : st1.by_rw = st2.by_rw) (q : Nat) :
    android_jit_rw_to_rx st1 q = android_jit_rw_to_rx st2 q := by
  unfold android_jit_rw_to_rx
  rw [h1]

theorem rx_to_rw_congr {st1 st2 : JitState} (h1 : st1.by_rw = st2.by_rw)
    (h2 : st1.by_rx = st2.by_rx) (q : Nat) :
    android_jit_rx_to_rw st1 q = android_jit_rx_to_rw st2 q := by
  unfold android_jit_rx_to_rw
  rw [h1, h2]

theorem mem_teardown_rw {rec0 : JitAllocation} (h : rec0.rw_ptr ≠ 0) :
    OsAction.munmapCall rec0.rw_ptr rec0.size ∈ teardownActions rec0 := by
  simp [teardownActions, h]

theorem mem_teardown_rx {rec0 : JitAllocation} (h : rec0.rx_ptr ≠ 0) :
    OsAction.munmapCall rec0.rx_ptr rec0.size ∈ teardownActions rec0 := by
  simp [teardownActions, h]

theorem mem_teardown_fd {rec0 : JitAllocation} (h : 0 ≤ rec0.fd) :
    OsAction.closeCall rec0.fd ∈ teardownActions rec0 := by
  simp [teardownActions, h]

theorem shutdown_trace_mem {st : JitState} {e : Nat × JitAllocation} (he : e ∈ st.by_rw)
    {act : OsAction} (ha : act ∈ teardownActions e.2) :
    act ∈ (android_jit_shutdown st).trace := by
  unfold android_jit_shutdown
  simp only [List.mem_flatten]
  exact ⟨teardownActions e.2, List.mem_map_of_mem _ he, ha⟩

/-- C6: when the second (read+execute) mmap fails after the first
(read+write) one succeeded, the call returns the error, the trace shows
the first mapping unmapped and the backing fd closed before the return,
the registry is exactly as before the call, and no address translates
differently than before: no incomplete allocation is observable. -/
theorem claim6_alloc_rollback (os : OsOracle) (st : JitState) (size a : Nat)
    (hfd : 0 ≤ os.memfd) (hft : os.ftruncate_ok = true)
    (hrw : os.rw_map = some a) (hrx : os.rx_map = none) :
    (android_jit_alloc os st size true true).ret = -1 ∧
    (android_jit_alloc os st size true true).st.by_rw = st.by_rw ∧
    (android_jit_alloc os st size true true).st.by_rx = st.by_rx ∧
    (android_jit_alloc os st size true true).trace =
      [OsAction.memfdCreate os.memfd,
       OsAction.ftruncateCall os.memfd
         (round_up_to_page (initIfNeeded os.sys_page_size st).page_size size),
       OsAction.mmapCall (round_up_to_page (initIfNeeded os.sys_page_size st).page_size size)
         os.memfd (some a),
       OsAction.mmapCall (round_up_to_page (initIfNeeded os.sys_page_size st).page_size size)
         os.memfd none,
       OsAction.munmapCall a (round_up_to_page (initIfNeeded os.sys_page_size st).page_size size),
       OsAction.closeCall os.memfd] ∧
    (∀ q, android_jit_rw_to_rx (android_jit_alloc os st size true true).st q =
        android_jit_rw_to_rx st q) ∧
    (∀ q, android_jit_rx_to_rw (android_jit_alloc os st size true true).st q =
        android_jit_rx_to_rw st q) := by
  have hshape : android_jit_alloc os st size true true =
      { ret := -1, einval := false, st := initIfNeeded os.sys_page_size st,
        rw_out := some 0, rx_out := some 0,
        trace := [OsAction.memfdCreate os.memfd,
                  OsAction.ftruncateCall os.memfd
                    (round_up_to_page (initIfNeeded os.sys_page_size st).page_size size),
                  OsAction.mmapCall
                    (round_up_to_page (initIfNeeded os.sys_page_size st).page_size size)
                    os.memfd (some a),
                  OsAction.mmapCall
                    (round_up_to_page (initIfNeeded os.sys_page_size st).page_size size)
                    os.memfd none,
                  OsAction.munmapCall a
                    (round_up_to_page (initIfNeeded os.sys_page_size st).page_size size),
                  OsAction.closeCall os.memfd] } := by
    unfold android_jit_alloc
    rw [hrw, hrx, hft]
    simp [Int.not_lt.mpr hfd]
  rw [hshape]
  exact ⟨rfl, initIfNeeded_by_rw _ _, initIfNeeded_by_rx _ _, rfl,
    fun q => rw_to_rx_congr (initIfNeeded_by_rw _ _) q,
    fun q => rx_to_rw_congr (initIfNeeded_by_rw _ _) (initIfNeeded_by_rx _ _) q⟩

/-- C6 witness: a concrete rx-mmap failure on the fresh state rolls back
fully; sample translation lookups before and after agree. -/
theorem claim6_alloc_rollback_witness :
    (android_jit_alloc osC st0 100 true true).ret = -1 ∧
    (android_jit_alloc osC st0 100 true true).st.by_rw = st0.by_rw ∧
    (android_jit_alloc osC st0 100 true true).st.by_rx = st0.by_rx ∧
    (android_jit_alloc osC st0 100 true true).trace =
      [OsAction.memfdCreate 7, OsAction.ftruncateCall 7 4096,
       OsAction.mmapCall 4096 7 (some 4096), OsAction.mmapCall 4096 7 none,
       OsAction.munmapCall 4096 4096, OsAction.closeCall 7] ∧
    android_jit_rw_to_rx (android_jit_alloc osC st0 100 true true).st 4096 =
      android_jit_rw_to_rx st0 4096 ∧
    android_jit_rx_to_rw (android_jit_alloc osC st0 100 true true).st 20480 =
      android_jit_rx_to_rw st0 20480 := by
  obtain ⟨h1, h2, h3, h4, h5, h6⟩ :=
    claim6_alloc_rollback osC st0 100 4096 (by decide) rfl rfl rfl
  exact ⟨h1, h2, h3, h4, h5 4096, h6 20480⟩

/-- C7 counterexample: the claim also demands an InvalidArgument failure
for zero size, before any backing store is created; but with size 0 and
non-null slots the code does not set EINVAL and its first action is
memfd_create — the backing store is created before any error return (the
zero-length mmap then fails in the OS, not in an argument check). -/
theorem claim7_invalid_argument_counterexample :
    (android_jit_alloc osZ st0 0 true true).einval = false ∧
    (android_jit_alloc osZ st0 0 true true).trace.head? = some (OsAction.memfdCreate 9) := by
  decide

/-- C7 (amended): allocate fails with the InvalidArgument error whenever
either output slot is null, returning before any backing store or mapping
is created (empty trace) and leaving the registry unchanged; a zero size
is not rejected — the call proceeds to create the backing store. -/
theorem claim7_invalid_argument (os : OsOracle) (st : JitState) (size : Nat)
    (rw_slot rx_slot : Bool) (h : rw_slot = false ∨ rx_slot = false) :
    (android_jit_alloc os st size rw_slot rx_slot).ret = -1 ∧
    (android_jit_alloc os st size rw_slot rx_slot).einval = true ∧
    (android_jit_alloc os st size rw_slot rx_slot).trace = [] ∧
    (android_jit_alloc os st size rw_slot rx_slot).st = st := by
  have hcond : (!rw_slot || !rx_slot) = true := by
    rcases h with h | h <;> simp [h]
  unfold android_jit_alloc
  rw [if_pos hcond]
  exact ⟨rfl, rfl, rfl, rfl⟩

/-- C7 witness: a null writable slot is rejected with EINVAL, an empty
trace and an unchanged registry. -/
theorem claim7_invalid_argument_witness :
    (android_jit_alloc osA st0 5 false true).ret = -1 ∧
    (android_jit_alloc osA st0 5 false true).einval = true ∧
    (android_jit_alloc osA st0 5 false true).trace = [] ∧
    (android_jit_alloc osA st0 5 false true).st = st0 :=
  claim7_invalid_argument osA st0 5 false true (Or.inl rfl)

/-- C8: a free whose writable pointer is not registered — including a
second free with the same arguments after a successful first one — is a
no-op: it performs no OS call and leaves the whole state (both index
structures, hence every other open allocation and every translation)
exactly unchanged. -/
theorem claim8_free_unknown_noop (st : JitState) (w x s : Nat)
    (h : st.by_rw.lookup w = none) :
    android_jit_free st w x s = { st := st, trace := [] } := by
  unfold android_jit_free
  by_cases h0 : w = 0 ∧ x = 0
  · rw [if_pos h0]
  · rw [if_neg h0, h]

/-- C8 witness: a double free of the first concrete allocation; the
second call is a no-op on the state left by the first. -/
theorem claim8_free_unknown_noop_witness :
    android_jit_free (android_jit_free stEx 4096 20480 4096).st 4096 20480 4096 =
      { st := (android_jit_free stEx 4096 20480 4096).st, trace := [] } :=
  claim8_free_unknown_noop (android_jit_free stEx 4096 20480 4096).st 4096 20480 4096
    (by decide)

/-- C10: the observable effect of free(w, x, s) is independent of the
size argument s: the C function accepts the parameter and never reads it
(it unmaps with the registry-recorded size), so two calls differing only
in s produce identical outcomes — the same resulting registry state and
the same released resources — for every state and pointer pair, in
particular for every registered writable pointer. -/
theorem claim10_free_ignores_size (st : JitState) (w x s1 s2 : Nat) :
    android_jit_free st w x s1 = android_jit_free st w x s2 := rfl

theorem single_alloc_translations (st1 : JitState) (a b asz : Nat) (fd : Int)
    (ha : a ≠ 0) (hb : b ≠ 0)
    (hrw : st1.by_rw = [(a, { rw_ptr := a, rx_ptr := b, size := asz, fd := fd })])
    (hrx : st1.by_rx = [(b, a)]) :
    android_jit_rw_to_rx st1 a = b ∧ android_jit_rx_to_rw st1 b = a := by
  constructor
  · unfold android_jit_rw_to_rx
    rw [if_neg ha, hrw]
    simp
  · unfold android_jit_rx_to_rw
    rw [if_neg hb, hrx, hrw]
    simp

/-- C9: the lifecycle is a two-state machine: init while Initialized is a
no-op returning 0 and the unchanged state; shutdown from any state
empties both index structures, returns to Uninitialized, and its trace
tears down (unmaps both views of, closes the backing fd of) every open
allocation; and after shutdown followed by a fresh init, allocate
succeeds under a successful OS oracle and both translation lookups
resolve the new allocation normally. -/
theorem claim9_lifecycle (st : JitState) (p q sz a b : Nat) (os : OsOracle)
    (hrw : os.rw_map = some a) (hrx : os.rx_map = some b)
    (hfd : 0 ≤ os.memfd) (hft : os.ftruncate_ok = true)
    (ha : a ≠ 0) (hb : b ≠ 0) :
    (st.initialized = true → android_jit_init p st = (0, st)) ∧
    ((android_jit_shutdown st).st.by_rw = [] ∧ (android_jit_shutdown st).st.by_rx = [] ∧
      (android_jit_shutdown st).st.initialized = false) ∧
    (∀ e ∈ st.by_rw,
      (e.2.rw_ptr ≠ 0 →
        OsAction.munmapCall e.2.rw_ptr e.2.size ∈ (android_jit_shutdown st).trace) ∧
      (e.2.rx_ptr ≠ 0 →
        OsAction.munmapCall e.2.rx_ptr e.2.size ∈ (android_jit_shutdown st).trace) ∧
      (0 ≤ e.2.fd → OsAction.closeCall e.2.fd ∈ (android_jit_shutdown st).trace)) ∧
    ((android_jit_alloc os (android_jit_init q (android_jit_shutdown st).st).2 sz
        true true).ret = 0 ∧
      android_jit_rw_to_rx
        (android_jit_alloc os (android_jit_init q (android_jit_shutdown st).st).2 sz
          true true).st a = b ∧
      android_jit_rx_to_rw
        (android_jit_alloc os (android_jit_init q (android_jit_shutdown st).st).2 sz
          true true).st b = a) := by
  refine ⟨?_, ⟨rfl, rfl, rfl⟩, ?_, ?_⟩
  · intro h
    unfold android_jit_init
    rw [if_pos h]
  · intro e he
    exact ⟨fun h => shutdown_trace_mem he (mem_teardown_rw h),
           fun h => shutdown_trace_mem he (mem_teardown_rx h),
           fun h => shutdown_trace_mem he (mem_teardown_fd h)⟩
  · have h2init : (android_jit_init q (android_jit_shutdown st).st).2.initialized = true := rfl
    have h2rw : (android_jit_init q (android_jit_shutdown st).st).2.by_rw = [] := rfl
    have h2rx : (android_jit_init q (android_jit_shutdown st).st).2.by_rx = [] := rfl
    have hiin : initIfNeeded os.sys_page_size (android_jit_init q (android_jit_shutdown st).st).2
        = (android_jit_init q (android_jit_shutdown st).st).2 := by
      unfold initIfNeeded
      rw [if_pos h2init]
    have hout := alloc_success_shape os (android_jit_init q (android_jit_shutdown st).st).2
      sz a b hrw hrx hfd hft
    have hby_rw : (android_jit_alloc os (android_jit_init q (android_jit_shutdown st).st).2 sz
        true true).st.by_rw =
        [(a, { rw_ptr := a, rx_ptr := b,
               size := round_up_to_page
                 (android_jit_init q (android_jit_shutdown st).st).2.page_size sz,
               fd := os.memfd })] := by
      rw [hout]
      show insertAssoc a _ (initIfNeeded os.sys_page_size
        (android_jit_init q (android_jit_shutdown st).st).2).by_rw = _
      rw [hiin, h2rw]
      rfl
    have hby_rx : (android_jit_alloc os (android_jit_init q (android_jit_shutdown st).st).2 sz
        true true).st.by_rx = [(b, a)] := by
      rw [hout]
      show insertAssoc b a (initIfNeeded os.sys_page_size
        (android_jit_init q (android_jit_shutdown st).st).2).by_rx = _
      rw [hiin, h2rx]
      rfl
    obtain ⟨t1, t2⟩ := single_alloc_translations _ a b _ os.memfd ha hb hby_rw hby_rx
    exact ⟨by rw [hout], t1, t2⟩

/-- C9 witness: on the concrete two-allocation registry, init is a no-op,
shutdown empties the registry and tears down both allocations, and after
shutdown plus a fresh init a new allocation is created and translated. -/
theorem claim9_lifecycle_witness :
    android_jit_init 4096 stEx = (0, stEx) ∧
    (android_jit_shutdown stEx).st.by_rw = [] ∧
    (android_jit_shutdown stEx).st.by_rx = [] ∧
    (android_jit_shutdown stEx).st.initialized = false ∧
    OsAction.munmapCall 4096 4096 ∈ (android_jit_shutdown stEx).trace ∧
    OsAction.munmapCall 20480 4096 ∈ (android_jit_shutdown stEx).trace ∧
    OsAction.closeCall 3 ∈ (android_jit_shutdown stEx).trace ∧
    OsAction.munmapCall 12288 8192 ∈ (android_jit_shutdown stEx).trace ∧
    OsAction.munmapCall 28672 8192 ∈ (android_jit_shutdown stEx).trace ∧
    OsAction.closeCall 4 ∈ (android_jit_shutdown stEx).trace ∧
    (android_jit_alloc osA (android_jit_init 4096 (android_jit_shutdown stEx).st).2 100
      true true).ret = 0 ∧
    android_jit_rw_to_rx
      (android_jit_alloc osA (android_jit_init 4096 (android_jit_shutdown stEx).st).2 100
        true true).st 4096 = 20480 ∧
    android_jit_rx_to_rw
      (android_jit_alloc osA (android_jit_init 4096 (android_jit_shutdown stEx).st).2 100
        true true).st 20480 = 4096 := by
  obtain ⟨h1, ⟨h2a, h2b, h2c⟩, h3, h4a, h4b, h4c⟩ :=
    claim9_lifecycle stEx 4096 4096 100 4096 20480 osA rfl rfl (by decide) rfl
      (by decide) (by decide)
  obtain ⟨hA1, hA2, hA3⟩ := h3 (4096, recA) (by decide)
  obtain ⟨hB1, hB2, hB3⟩ := h3 (12288, recB) (by decide)
  exact ⟨h1 rfl, h2a, h2b, h2c, hA1 (by decide), hA2 (by decide), hA3 (by decide),
    hB1 (by decide), hB2 (by decide), hB3 (by decide), h4a, h4b, h4c⟩
